import Mathlib

/-!
Verification development for the song-asset download authorization and cache
subsystem (source file: core/download.py).  The Python code is shallowly
embedded: SQL tables and Python dicts become association lists, the on-disk
song tree becomes an explicit `FS` value, the clock becomes an explicit
integer parameter, and fallible operations return `Except`/`Option`.
-/

namespace ArcaeaDL

/-! ## Association-list primitives

These model both Python dict assignment (which replaces the value of an
existing key in place and otherwise appends) and SQL `INSERT OR REPLACE`
keyed by a primary key. -/

/-- Lookup by key; models dict indexing and a `SELECT ... WHERE key=?`. -/
def alookup {α β : Type} [DecidableEq α] (l : List (α × β)) (k : α) : Option β :=
  match l with
  | [] => none
  | (k2, v) :: t => if k2 = k then some v else alookup t k

/-- Insert-or-replace by key: replaces the first binding of `k`, else appends.
Models Python dict assignment and SQL `INSERT OR REPLACE`. -/
def dictSet {α β : Type} [DecidableEq α] (l : List (α × β)) (k : α) (v : β) :
    List (α × β) :=
  match l with
  | [] => [(k, v)]
  | (k2, w) :: t => if k2 = k then (k, v) :: t else (k2, w) :: dictSet t k v

/-- Code-point comparison of character lists, the base of the TEXT ordering
used by the ORDER BY clauses. -/
def charsLe : List Char → List Char → Bool
  | [], _ => true
  | _ :: _, [] => false
  | a :: as, b :: bs =>
    if a.toNat < b.toNat then true
    else if b.toNat < a.toNat then false
    else charsLe as bs

/-- String comparison in the ordering of the sqlite ORDER BY. -/
def strLe (a b : String) : Bool := charsLe a.toList b.toList

/-- Insert into an ascending list, keeping it ascending. -/
def orderedInsertStr (a : String) : List String → List String
  | [] => [a]
  | b :: l => if strLe a b then a :: b :: l else b :: orderedInsertStr a l

/-- Ascending sort of strings: the ORDER BY of the sqlite queries. -/
def sortStrings : List String → List String
  | [] => []
  | a :: l => orderedInsertStr a (sortStrings l)

/-! ## Catalogue model (SonglistParser) -/

/-- The eleven well-known file names, in bit order (SonglistParser.FILE_NAMES). -/
def FILE_NAMES : List String :=
  ["0.aff", "1.aff", "2.aff", "3.aff", "4.aff",
   "base.ogg", "3.ogg", "video.mp4", "video_audio.ogg", "video_720.mp4", "video_1080.mp4"]

/-- One element of a songlist entry difficulties array.  The `ratingClass` key
is mandatory in the code (plain indexing); `audioOverride` is read with
`.get` defaulting to false, so it is a plain Bool here. -/
structure Difficulty where
  ratingClass : Nat
  audioOverride : Bool
deriving DecidableEq

/-- One songlist entry.  Optional JSON keys are `Option`; `setKey` models the
JSON key named set; `additional_files` keeps only the `file_name` fields,
which is all the code reads.  `remote_dl` truthiness is `getD false`. -/
structure SongEntry where
  id : Option String
  setKey : Option String
  purchase : Option String
  remote_dl : Option Bool
  world_unlock : Bool
  difficulties : List Difficulty
  additional_files : List String
deriving DecidableEq

/-- One iteration of the parse_one difficulties loop under truthy remote_dl:
bit 6 for an audio-overriding Beyond difficulty, and the bit of the rating
class. -/
def parseDiffDl (r : Nat) (i : Difficulty) : Nat :=
  let r := if i.ratingClass = 3 ∧ i.audioOverride = true then r ||| 64 else r
  r ||| (1 <<< i.ratingClass)

/-- One iteration of the parse_one difficulties loop under falsy or absent
remote_dl: bit 3 for a Beyond difficulty, plus bit 6 when it overrides the
audio. -/
def parseDiffNoDl (r : Nat) (i : Difficulty) : Nat :=
  if i.ratingClass = 3 then
    (if i.audioOverride then r ||| 8 ||| 64 else r ||| 8)
  else r

/-- One iteration of the parse_one additional_files loop: bits 7 to 10 for
the four video file names. -/
def parseAF (r : Nat) (x : String) : Nat :=
  if x = "video.mp4" then r ||| 128
  else if x = "video_audio.ogg" then r ||| 256
  else if x = "video_720.mp4" then r ||| 512
  else if x = "video_1080.mp4" then r ||| 1024
  else r

/-- SonglistParser.parse_one: compile one songlist entry to a
`(song_id, bitmap)` pair; entries without an id yield nothing. -/
def parse_one (song : SongEntry) : Option (String × Nat) :=
  match song.id with
  | none => none
  | some sid =>
    let r : Nat :=
      if song.remote_dl.getD false then
        song.difficulties.foldl parseDiffDl 32
      else
        song.difficulties.foldl parseDiffNoDl 0
    let r := song.additional_files.foldl parseAF r
    some (sid, r)

/-- The in-memory catalogue indexes of SonglistParser (class-level state). -/
structure ParserState where
  has_songlist : Bool
  songs : List (String × Nat)
  pack_info : List (String × Finset String)
  free_songs : Finset String
  world_songs : Finset String
deriving DecidableEq

/-- The state with every index empty (module-load state of SonglistParser). -/
def emptyParserState : ParserState :=
  { has_songlist := false, songs := [], pack_info := [], free_songs := ∅, world_songs := ∅ }

/-- pack_info.setdefault(k, set()).add(v). -/
def packAdd (pi : List (String × Finset String)) (k v : String) :
    List (String × Finset String) :=
  match alookup pi k with
  | some s => dictSet pi k (insert v s)
  | none => dictSet pi k ({v} : Finset String)

/-- SonglistParser.parse_one_unlock: fill the entitlement indexes from one
entry; entries missing id, set or purchase are skipped. -/
def parse_one_unlock (freePack : String) (st : ParserState) (song : SongEntry) :
    ParserState :=
  match song.id, song.setKey, song.purchase with
  | some sid, some s, some purchase =>
    if freePack = s then
      let st := if song.difficulties.any (fun i => i.ratingClass == 3)
        then { st with world_songs := insert (sid ++ "3") st.world_songs } else st
      { st with free_songs := insert sid st.free_songs }
    else
      let st := if song.world_unlock
        then { st with world_songs := insert sid st.world_songs } else st
      if purchase = "" then st
      else { st with pack_info := packAdd st.pack_info s sid }
  | _, _, _ => st

/-- The catalogue file as seen by SonglistParser.parse: either the file is
absent, or it exists but `loads(f.read()).get(..)` raises (invalid JSON, or a
non-dict top level), or it yields a songs array. -/
inductive CatalogueInput where
  | absent : CatalogueInput
  | malformed : CatalogueInput
  | wellFormed : List SongEntry → CatalogueInput
deriving DecidableEq

/-- SonglistParser.parse: absent file returns with everything still empty;
the code has no exception handler, so a malformed file propagates the
decoding error (modelled as `Except.error`); otherwise every entry goes
through parse_one and parse_one_unlock in order. -/
def parse (freePack : String) (input : CatalogueInput) : Except Unit ParserState :=
  match input with
  | .absent => .ok emptyParserState
  | .malformed => .error ()
  | .wellFormed data =>
    .ok (data.foldl (fun st x =>
      let st := match parse_one x with
        | some (sid, r) => { st with songs := dictSet st.songs sid r }
        | none => st
      parse_one_unlock freePack st x)
      { emptyParserState with has_songlist := true })

/-- SonglistParser.is_available_file: a song unknown to the catalogue only
restricts the name to FILE_NAMES; a known song also requires its bit. -/
def is_available_file (catSongs : List (String × Nat)) (song_id file_name : String) :
    Bool :=
  match alookup catSongs song_id with
  | none => FILE_NAMES.contains file_name
  | some rule =>
    FILE_NAMES.enum.any (fun p =>
      decide (file_name = p.2) && decide (rule &&& (1 <<< p.1) ≠ 0))

/-! ## User entitlements -/

/-- The slice of UserInfo that get_user_unlocks and the token batch read. -/
structure UserInfo where
  user_id : Int
  packs : List String
  singles : List String
  world_songs : List String
deriving DecidableEq

/-- The Python expression `i if i[-1] != char 3 else i[:-1]`: drop exactly one
trailing character when the id ends with the digit 3.  (Python would raise on
an empty id; here the empty string is returned unchanged.) -/
def pyStrip3 (s : String) : String :=
  if s.toList.getLast? = some '3' then s.dropRight 1 else s

/-- Modelled from the spec: `id.rstrip(3)`, which removes every trailing
digit-3 character, written here only to compare against the code behaviour
`pyStrip3` (the code drops at most one character). -/
def pyRstrip3 (s : String) : String :=
  String.mk ((s.toList.reverse.dropWhile (fun c => c = '3')).reverse)

/-- SonglistParser.get_user_unlocks: union of the songs of each owned pack,
the single-purchase pack intersected with owned singles, the world songs
intersected with the user world songs (with one trailing 3 stripped), and
the free songs; a missing user yields the empty set. -/
def get_user_unlocks (singlePack : String) (x : ParserState) (user : Option UserInfo) :
    Finset String :=
  match user with
  | none => ∅
  | some user =>
    let r : Finset String := ∅
    let r := user.packs.foldl (fun r i =>
      match alookup x.pack_info i with
      | some s => r ∪ s
      | none => r) r
    let r := match alookup x.pack_info singlePack with
      | some s => r ∪ (s ∩ user.singles.toFinset)
      | none => r
    let r := r ∪ (x.world_songs ∩ user.world_songs.toFinset).image pyStrip3
    r ∪ x.free_songs

/-- Modelled from the spec: the same union but with `pyRstrip3` on the world
ids, exactly as the spec sentence describes; used only to compare with
`get_user_unlocks`. -/
def spec_get_user_unlocks (singlePack : String) (x : ParserState)
    (user : Option UserInfo) : Finset String :=
  match user with
  | none => ∅
  | some user =>
    let r : Finset String := ∅
    let r := user.packs.foldl (fun r i =>
      match alookup x.pack_info i with
      | some s => r ∪ s
      | none => r) r
    let r := match alookup x.pack_info singlePack with
      | some s => r ∪ (s ∩ user.singles.toFinset)
      | none => r
    let r := r ∪ (x.world_songs ∩ user.world_songs.toFinset).image pyRstrip3
    r ∪ x.free_songs

/-! ## Token issuance and validation (UserDownload) -/

/-- UserDownload.generate_token sets token_time to the current unix second;
the stored time of a token issued at t0 is t0 itself. -/
def generate_token_time (now : Int) : Int := now

/-- UserDownload.is_valid: `int(time()) - self.token_time <= DOWNLOAD_TIME_GAP_LIMIT`.
The gap limit is a config value, passed explicitly. -/
def is_valid (gap token_time now : Int) : Bool :=
  decide (now - token_time ≤ gap)

/-! ## File-metadata cache (SongFileCache)

The on-disk tree and the two sqlite tables become explicit values; the
current time is a parameter.  File contents are abstracted to the MD5 the
hashing helper would produce for them, which is all the code observes. -/

/-- The stat data of one file plus the MD5 of its bytes. -/
structure FileStat where
  size : Int
  mtime_ns : Int
  content_md5 : String
deriving DecidableEq

/-- One song directory: its mtime and its regular files. -/
structure SongDirectory where
  mtime_ns : Int
  files : List (String × FileStat)
deriving DecidableEq

/-- The tree rooted at SONG_FILE_FOLDER_PATH: whether the root exists, its
mtime, and its immediate subdirectories. -/
structure FS where
  root_exists : Bool
  root_mtime_ns : Int
  dirs : List (String × SongDirectory)
deriving DecidableEq

/-- os.path.isdir + os.stat/scandir of root/song_id, as one lookup. -/
def statDir (fs : FS) (song_id : String) : Option SongDirectory :=
  if fs.root_exists then alookup fs.dirs song_id else none

/-- One row of the songs table (without its key). -/
structure SongRow where
  dir_mtime_ns : Int
  last_scan : Int
deriving DecidableEq

/-- One row of the files table (without its key). -/
structure FileRow where
  size : Int
  mtime_ns : Int
  md5 : Option String
  last_seen : Int
deriving DecidableEq

/-- The two sqlite tables of song_cache.db, keyed by their primary keys. -/
structure SongDB where
  songs : List (String × SongRow)
  files : List ((String × String) × FileRow)
deriving DecidableEq

/-- SongFileCache._delete_song: drop the songs row and all files rows. -/
def deleteSong (db : SongDB) (song_id : String) : SongDB :=
  { songs := db.songs.filter (fun p => decide (p.1 ≠ song_id)),
    files := db.files.filter (fun p => decide (p.1.1 ≠ song_id)) }

/-- SongFileCache._delete_file: drop one files row. -/
def deleteFile (db : SongDB) (song_id file_name : String) : SongDB :=
  { db with files := db.files.filter (fun p => decide (p.1 ≠ (song_id, file_name))) }

/-- Python truthiness of the stored md5 column (`not existing[md5]` is true
for NULL and for the empty string). -/
def pyFalsyStr (o : Option String) : Bool :=
  match o with
  | none => true
  | some s => decide (s = "")

/-- The per-file body of the sync_song loop, acting on the files rows: stat
the file, refresh last_seen when (size, mtime_ns) is unchanged (filling in a
missing md5 when pre-hashing is on), otherwise insert-or-replace the row,
hashing only when pre-hashing is on. -/
def syncFileRows (pre_calc : Bool) (now : Int) (song_id : String)
    (dir : SongDirectory) (rows : List ((String × String) × FileRow))
    (file_name : String) : List ((String × String) × FileRow) :=
  match alookup dir.files file_name with
  | none => rows.filter (fun p => decide (p.1 ≠ (song_id, file_name)))
  | some st =>
    let fresh : FileRow :=
      { size := st.size, mtime_ns := st.mtime_ns,
        md5 := if pre_calc then some st.content_md5 else none, last_seen := now }
    match alookup rows (song_id, file_name) with
    | some existing =>
      if existing.size = st.size ∧ existing.mtime_ns = st.mtime_ns then
        if pre_calc ∧ pyFalsyStr existing.md5 then
          dictSet rows (song_id, file_name)
            { size := existing.size, mtime_ns := existing.mtime_ns,
              md5 := some st.content_md5, last_seen := now }
        else
          dictSet rows (song_id, file_name)
            { size := existing.size, mtime_ns := existing.mtime_ns,
              md5 := existing.md5, last_seen := now }
      else dictSet rows (song_id, file_name) fresh
    | none => dictSet rows (song_id, file_name) fresh

/-- The file enumeration and per-file loop of sync_song on the files rows:
retain the catalogue-legal directory entries, delete the rows of this song
not among them (all its rows when none are legal), and refresh each legal
file via `syncFileRows`. -/
def syncFiles (catSongs : List (String × Nat)) (pre_calc : Bool) (now : Int)
    (song_id : String) (dir : SongDirectory)
    (rows : List ((String × String) × FileRow)) :
    List ((String × String) × FileRow) :=
  let file_names :=
    (dir.files.filter (fun f => is_available_file catSongs song_id f.1)).map Prod.fst
  if file_names = [] then rows.filter (fun p => decide (p.1.1 ≠ song_id))
  else
    let rows := rows.filter (fun p =>
      decide (p.1.1 ≠ song_id) || decide (p.1.2 ∈ file_names))
    file_names.foldl (syncFileRows pre_calc now song_id dir) rows

/-- The fast-path test of sync_song: the stored dir_mtime_ns equals the
observed one. -/
def syncFast (db : SongDB) (song_id : String) (dir_mtime_ns : Int) : Bool :=
  match alookup db.songs song_id with
  | some row => decide (row.dir_mtime_ns = dir_mtime_ns)
  | none => false

/-- SongFileCache.sync_song.  A missing directory prunes the song; an equal
stored dir_mtime_ns is the fast path; otherwise the songs row is upserted
and the files rows are refreshed via `syncFiles`. -/
def sync_song (catSongs : List (String × Nat)) (pre_calc : Bool) (fs : FS)
    (now : Int) (song_id : String) (dir_mtime_arg : Option Int) (db : SongDB) :
    SongDB :=
  match statDir fs song_id with
  | none => deleteSong db song_id
  | some dir =>
    let dir_mtime_ns := dir_mtime_arg.getD dir.mtime_ns
    if syncFast db song_id dir_mtime_ns then db
    else
      { songs := dictSet db.songs song_id
          { dir_mtime_ns := dir_mtime_ns, last_scan := now },
        files := syncFiles catSongs pre_calc now song_id dir db.files }

/-- The subdirectory names enumerated by sync_all (scandir on the root,
excluding dot and dot-dot entries). -/
def songIds (fs : FS) : List String :=
  (fs.dirs.filter (fun e => decide (e.1 ≠ ".") && decide (e.1 ≠ ".."))).map Prod.fst

/-- One iteration of the sync_all loop: stat the directory (a vanished one is
skipped) and sync_song it with the observed mtime. -/
def syncStep (catSongs : List (String × Nat)) (pre_calc : Bool) (fs : FS)
    (now : Int) (db : SongDB) (sid : String) : SongDB :=
  match statDir fs sid with
  | none => db
  | some d => sync_song catSongs pre_calc fs now sid (some d.mtime_ns) db

/-- The trailing deletes of sync_all: drop the rows of songs that are no
longer subdirectories; when none remain, delete every row. -/
def syncPrune (fs : FS) (db : SongDB) : SongDB :=
  if songIds fs = [] then { songs := [], files := [] }
  else
    { songs := db.songs.filter (fun p => decide (p.1 ∈ songIds fs)),
      files := db.files.filter (fun p => decide (p.1.1 ∈ songIds fs)) }

/-- SongFileCache.sync_all.  A missing root returns immediately; otherwise
every subdirectory is synced and rows of vanished songs are deleted (all rows
when no subdirectory remains). -/
def sync_all (catSongs : List (String × Nat)) (pre_calc : Bool) (fs : FS)
    (now : Int) (db : SongDB) : SongDB :=
  if fs.root_exists then
    syncPrune fs ((songIds fs).foldl (syncStep catSongs pre_calc fs now) db)
  else db

/-- SongFileCache.get_song_file_names: re-sync when the stored dir_mtime_ns
differs from the argument, then return the file names of the song sorted
ascending (the ORDER BY of the query). -/
def get_song_file_names (catSongs : List (String × Nat)) (pre_calc : Bool)
    (fs : FS) (now : Int) (song_id : String) (dir_mtime_ns : Int) (db : SongDB) :
    List String × SongDB :=
  let stale : Bool := match alookup db.songs song_id with
    | some row => decide (row.dir_mtime_ns ≠ dir_mtime_ns)
    | none => true
  let db := if stale then sync_song catSongs pre_calc fs now song_id (some dir_mtime_ns) db
            else db
  (sortStrings ((db.files.filter (fun p => decide (p.1.1 = song_id))).map (fun p => p.1.2)),
   db)

/-- SongFileCache.get_all_song_ids: when the cached meta root_mtime_ns
differs from the argument, run sync_all and write it back; return the song
ids sorted ascending (the ORDER BY of the query). -/
def cache_get_all_song_ids (catSongs : List (String × Nat)) (pre_calc : Bool)
    (fs : FS) (now : Int) (root_mtime_ns : Int) (meta_root : Option Int)
    (db : SongDB) : List String × Option Int × SongDB :=
  if meta_root = some root_mtime_ns then
    (sortStrings (db.songs.map Prod.fst), meta_root, db)
  else
    let db := sync_all catSongs pre_calc fs now db
    (sortStrings (db.songs.map Prod.fst), some root_mtime_ns, db)

/-- All files rows are legal for the catalogue: the invariant the sync paths
establish and the bitmap-legality property relies on. -/
def filesLegal (catSongs : List (String × Nat)) (db : SongDB) : Bool :=
  db.files.all (fun p => is_available_file catSongs p.1.1 p.1.2)

/-! ## Download-list builder (DownloadList)

The three lru_cache layers are modelled as the direct calls they wrap (their
keys embed the mtime change witnesses, so on a fixed tree the cached value is
the value of the call).  The hash lookup, the token digest (which mixes in
os.urandom) and the URL rendering (static prefix or the Flask url_for) are
abstracted as oracle functions carried in `Env`: no claim depends on their
values, only on where they appear.  Python set iteration order is
unspecified, so `list(set ...)` is the oracle `setEnum`. -/

/-- A manifest leaf: the checksum value and, when URLs were requested, the
URL.  `checksum` holds the (possibly null) hash value. -/
structure SubEntry where
  checksum : Option String
  url : Option String
deriving DecidableEq

/-- The manifest audio object.  `checksum` is doubly optional: the outer
layer is presence of the key (only the base.ogg branch creates it), the inner
is the possibly-null hash value. `three` is the key named 3. -/
structure AudioObj where
  checksum : Option (Option String)
  url : Option String
  three : Option SubEntry
deriving DecidableEq

/-- The audio object just created by `re.setdefault`-style access. -/
def emptyAudio : AudioObj := { checksum := none, url := none, three := none }

/-- One song manifest entry: audio, chart (keyed by first character of the
file name, in insertion order) and additional_files (in append order). -/
structure Manifest where
  audio : Option AudioObj
  chart : List (String × SubEntry)
  additional_files : List (String × SubEntry)
deriving DecidableEq

/-- The emitted empty manifest `re = dict()`. -/
def emptyManifest : Manifest := { audio := none, chart := [], additional_files := [] }

/-- One UserDownload appended to self.downloads: token and token_time are
set only when the url property was evaluated (that is, when url_flag). -/
structure Download where
  song_id : String
  file_name : String
  token : Option String
  token_time : Option Int
deriving DecidableEq

/-- The configuration and oracles a download-list request runs under. -/
structure Env where
  ps : ParserState
  pre_calc : Bool
  forbid : Bool
  singlePack : String
  gap : Int
  fs : FS
  now : Int
  hashFn : String → String → Option String
  tokenFn : String → String → String
  urlFn : String → String → String → String
  setEnum : Finset String → List String

/-- The body of the add_one_song routing loop for one file name: place its
checksum (and URL when url_flag) into audio / audio.three /
additional_files / chart according to the name. -/
def routeFile (env : Env) (url_flag : Bool) (song_id : String) (re : Manifest)
    (i : String) : Manifest :=
  let h := env.hashFn song_id i
  let u := env.urlFn song_id i (env.tokenFn song_id i)
  let leaf : SubEntry := if url_flag then { checksum := h, url := some u }
                         else { checksum := h, url := none }
  if i = "base.ogg" then
    let a := { re.audio.getD emptyAudio with checksum := some h }
    let a := if url_flag then { a with url := some u } else a
    { re with audio := some a }
  else if i = "3.ogg" then
    let a := { re.audio.getD emptyAudio with three := some leaf }
    { re with audio := some a }
  else if i = "video.mp4" ∨ i = "video_audio.ogg" ∨ i = "video_720.mp4"
       ∨ i = "video_1080.mp4" then
    { re with additional_files := re.additional_files ++ [(i, leaf)] }
  else
    { re with chart := dictSet re.chart (i.take 1) leaf }

/-- The manifest entry add_one_song builds for a song from its legal file
list. -/
def manifest_of (env : Env) (url_flag : Bool) (song_id : String)
    (names : List String) : Manifest :=
  names.foldl (routeFile env url_flag song_id) emptyManifest

/-- The UserDownload records add_one_song appends for a song, one per legal
file; tokens exist exactly when url_flag made the url property run
generate_token. -/
def downloads_of (env : Env) (url_flag : Bool) (song_id : String)
    (names : List String) : List Download :=
  names.map (fun i =>
    { song_id := song_id, file_name := i,
      token := if url_flag then some (env.tokenFn song_id i) else none,
      token_time := if url_flag then some env.now else none })

/-- The mutable state a DownloadList request threads: the song cache, the
cached meta root mtime, the download_token table of the primary database,
self.downloads and self.urls. -/
structure DLState where
  db : SongDB
  meta_root : Option Int
  tokens : List ((Int × String × String) × (String × Int))
  downloads : List Download
  urls : List (String × Manifest)
deriving DecidableEq

/-- DownloadList.get_one_song_file_names: a vanished directory prunes the
song and yields no files; otherwise the (memoized) get_song_file_names at
the observed dir mtime. -/
def get_one_song_file_names (env : Env) (song_id : String) (db : SongDB) :
    List String × SongDB :=
  match statDir env.fs song_id with
  | none => ([], deleteSong db song_id)
  | some dir =>
    get_song_file_names env.ps.songs env.pre_calc env.fs env.now song_id
      dir.mtime_ns db

/-- DownloadList.add_one_song: list the legal files, append their
UserDownloads, and store the routed manifest under the song id.  The single
Python loop is split into `manifest_of` and `downloads_of`, which fold the
same per-file steps. -/
def add_one_song (env : Env) (url_flag : Bool) (song_id : String)
    (st : DLState) : DLState :=
  let r := get_one_song_file_names env song_id st.db
  { st with db := r.2,
            downloads := st.downloads ++ downloads_of env url_flag song_id r.1,
            urls := dictSet st.urls song_id (manifest_of env url_flag song_id r.1) }

/-- DownloadList.get_all_song_ids (the static method): a missing root yields
no songs; otherwise the (memoized) cache query keyed by the observed root
mtime. -/
def dl_get_all_song_ids (env : Env) (st : DLState) : List String × DLState :=
  if env.fs.root_exists then
    let r := cache_get_all_song_ids env.ps.songs env.pre_calc env.fs env.now
      env.fs.root_mtime_ns st.meta_root st.db
    (r.1, { st with meta_root := r.2.1, db := r.2.2 })
  else ([], st)

/-- DownloadList.clear_download_token: delete rows with
`time < now - DOWNLOAD_TIME_GAP_LIMIT`. -/
def clear_download_token (gap now : Int)
    (tokens : List ((Int × String × String) × (String × Int))) :
    List ((Int × String × String) × (String × Int)) :=
  tokens.filter (fun r => decide (¬ r.2.2 < now - gap))

/-- DownloadList.insert_download_tokens: one batched insert-or-replace keyed
by (user_id, song_id, file_name).  The executemany runs only when url_flag,
when every download carries a token; the getD defaults are unreachable then. -/
def insert_download_tokens (user_id : Int) (downloads : List Download)
    (tokens : List ((Int × String × String) × (String × Int))) :
    List ((Int × String × String) × (String × Int)) :=
  downloads.foldl (fun tks x =>
    dictSet tks (user_id, x.song_id, x.file_name)
      (x.token.getD "", x.token_time.getD 0)) tokens

/-- DownloadList.add_songs.  An empty or missing song_ids argument means all
songs (already sorted by the query); an explicit list is walked in the given
order, skipping songs without a directory.  Under DOWNLOAD_FORBID_WHEN_NO_ITEM
with a catalogue, either list is intersected with the user unlocks as a
Python set, whose enumeration order is the oracle `setEnum`.  When url_flag,
expired tokens are pruned and the new tokens batch-inserted at the end. -/
def add_songs (env : Env) (url_flag : Bool) (user : UserInfo)
    (song_ids_arg : Option (List String)) (st : DLState) : DLState :=
  let song_ids := song_ids_arg.getD []
  let st :=
    if song_ids = [] then
      let r := dl_get_all_song_ids env st
      let ids := if env.forbid && env.ps.has_songlist
        then env.setEnum (get_user_unlocks env.singlePack env.ps (some user)
          ∩ r.1.toFinset)
        else r.1
      ids.foldl (fun st i => add_one_song env url_flag i st) r.2
    else
      let ids := if env.forbid && env.ps.has_songlist
        then env.setEnum (get_user_unlocks env.singlePack env.ps (some user)
          ∩ song_ids.toFinset)
        else song_ids
      ids.foldl (fun st i =>
        if (statDir env.fs i).isSome then add_one_song env url_flag i st else st) st
  if url_flag then
    let tks := insert_download_tokens user.user_id st.downloads
      (clear_download_token env.gap env.now st.tokens)
    { st with tokens := tks }
  else st

/-! ## Concrete inputs used by witnesses and counterexamples -/

/-- A minimal environment: empty catalogue, no root, inert oracles. -/
def baseEnv : Env :=
  { ps := emptyParserState, pre_calc := false, forbid := false,
    singlePack := "single", gap := 100,
    fs := { root_exists := false, root_mtime_ns := 0, dirs := [] },
    now := 0, hashFn := fun _ _ => none, tokenFn := fun _ _ => "",
    urlFn := fun _ _ _ => "", setEnum := fun _ => [] }

/-- A fresh DownloadList state: empty cache, no meta, no tokens. -/
def st0 : DLState :=
  { db := { songs := [], files := [] }, meta_root := none, tokens := [],
    downloads := [], urls := [] }

/-- Catalogue entry with remote_dl absent, one Beyond difficulty and one
additional video file. -/
def c2song : SongEntry :=
  { id := some "s", setKey := some "pack", purchase := some "p",
    remote_dl := none, world_unlock := false,
    difficulties := [{ ratingClass := 3, audioOverride := false }],
    additional_files := ["video.mp4"] }

/-- Catalogue entry with remote_dl false and an audio-overriding Beyond
difficulty. -/
def c2wsong : SongEntry :=
  { id := some "s", setKey := some "pack", purchase := some "p",
    remote_dl := some false, world_unlock := false,
    difficulties := [{ ratingClass := 3, audioOverride := true }],
    additional_files := [] }

/-- Parser state whose world index holds an id with two trailing 3 digits. -/
def c3state : ParserState :=
  { emptyParserState with has_songlist := true, world_songs := {"a33"} }

/-- User owning that world song. -/
def c3user : UserInfo :=
  { user_id := 1, packs := [], singles := [], world_songs := ["a33"] }

/-- A tree whose root directory does not exist. -/
def c4fsAbsent : FS := { root_exists := false, root_mtime_ns := 0, dirs := [] }

/-- A tree whose root exists but has no subdirectories. -/
def c4fsEmptyRoot : FS := { root_exists := true, root_mtime_ns := 0, dirs := [] }

/-- A cache holding one songs row and one files row. -/
def c4db : SongDB :=
  { songs := [("x", { dir_mtime_ns := 1, last_scan := 2 })],
    files := [(("x", "0.aff"), { size := 1, mtime_ns := 1, md5 := none, last_seen := 0 })] }

/-- The stat data of the one chart file of the C7 tree. -/
def c7file : FileStat := { size := 10, mtime_ns := 20, content_md5 := "h" }

/-- The one song directory of the C7 tree. -/
def c7dir : SongDirectory := { mtime_ns := 5, files := [("0.aff", c7file)] }

/-- A tree with one song directory holding one chart file. -/
def c7fs : FS := { root_exists := true, root_mtime_ns := 3, dirs := [("s", c7dir)] }

/-- A tree with two empty song directories named b and a, in that order. -/
def c8fs : FS :=
  { root_exists := true, root_mtime_ns := 7,
    dirs := [("b", { mtime_ns := 1, files := [] }),
             ("a", { mtime_ns := 2, files := [] })] }

/-- Environment over the two-directory tree. -/
def env8 : Env := { baseEnv with fs := c8fs }

/-- A plain user with no entitlements. -/
def u8 : UserInfo := { user_id := 1, packs := [], singles := [], world_songs := [] }

/-- A state whose token table already holds one row. -/
def st9 : DLState := { st0 with tokens := [((1, "s", "f"), ("tok", 5))] }

end ArcaeaDL

namespace ArcaeaDL

/-! ## Association-list and filter lemmas -/

theorem alookup_dictSet_self {α β : Type} [DecidableEq α] (l : List (α × β))
    (k : α) (v : β) : alookup (dictSet l k v) k = some v := by
  induction l with
  | nil => simp [dictSet, alookup]
  | cons p t ih =>
    obtain ⟨a, b⟩ := p
    by_cases h : a = k <;> simp [dictSet, alookup, h, ih]

theorem alookup_dictSet_ne {α β : Type} [DecidableEq α] (l : List (α × β))
    (k k2 : α) (v : β) (h : k2 ≠ k) :
    alookup (dictSet l k v) k2 = alookup l k2 := by
  have hkk : ¬ k = k2 := fun hh => h hh.symm
  induction l with
  | nil => simp [dictSet, alookup, hkk]
  | cons p t ih =>
    obtain ⟨a, b⟩ := p
    by_cases hak : a = k
    · subst hak
      simp [dictSet, alookup, hkk]
    · by_cases hk2 : a = k2 <;> simp [dictSet, alookup, hak, hk2, hkk, h, ih]

theorem keys_dictSet {α β : Type} [DecidableEq α] (l : List (α × β)) (k : α)
    (v : β) :
    (dictSet l k v).map Prod.fst = l.map Prod.fst ∨
    (dictSet l k v).map Prod.fst = l.map Prod.fst ++ [k] := by
  induction l with
  | nil => right; simp [dictSet]
  | cons p t ih =>
    obtain ⟨a, b⟩ := p
    by_cases h : a = k
    · left; simp [dictSet, h]
    · rcases ih with ih | ih
      · left; simp [dictSet, h, ih]
      · right; simp [dictSet, h, ih]

theorem mem_keys_dictSet {α β : Type} [DecidableEq α] (l : List (α × β))
    (k x : α) (v : β) (h : x ∈ (dictSet l k v).map Prod.fst) :
    x ∈ l.map Prod.fst ∨ x = k := by
  rcases keys_dictSet l k v with hk | hk
  · left; rwa [hk] at h
  · rw [hk] at h
    rcases List.mem_append.mp h with h | h
    · left; exact h
    · right; simpa using h

theorem alookup_filter {α β : Type} [DecidableEq α] (q : α → Bool)
    (l : List (α × β)) (k : α) :
    alookup (l.filter (fun p => q p.1)) k = if q k then alookup l k else none := by
  induction l with
  | nil => simp [alookup]
  | cons p t ih =>
    obtain ⟨a, b⟩ := p
    by_cases hak : a = k
    · subst hak
      cases hq : q a <;> simp [alookup, hq, ih]
    · cases hq : q a <;> simp [alookup, hak, hq, ih]

/-! ## Sort lemmas -/

theorem charsLe_total : ∀ (a b : List Char), charsLe a b = true ∨ charsLe b a = true
  | [], _ => Or.inl rfl
  | _ :: _, [] => Or.inr rfl
  | a :: as, b :: bs => by
    rcases Nat.lt_trichotomy a.toNat b.toNat with h | h | h
    · left; simp [charsLe, h]
    · have h1 : ¬ a.toNat < b.toNat := by omega
      have h2 : ¬ b.toNat < a.toNat := by omega
      rcases charsLe_total as bs with hr | hr
      · left; simp [charsLe, h1, h2, hr]
      · right; simp [charsLe, h1, h2, hr]
    · right; simp [charsLe, h]

theorem charsLe_trans : ∀ {a b c : List Char},
    charsLe a b = true → charsLe b c = true → charsLe a c = true
  | [], _, _, _, _ => rfl
  | a :: as, [], _, hab, _ => by simp [charsLe] at hab
  | a :: as, b :: bs, [], _, hbc => by simp [charsLe] at hbc
  | a :: as, b :: bs, c :: cs, hab, hbc => by
    by_cases hab1 : a.toNat < b.toNat <;> by_cases hbc1 : b.toNat < c.toNat
    · have : a.toNat < c.toNat := by omega
      simp [charsLe, this]
    · by_cases hcb : c.toNat < b.toNat
      · simp [charsLe, hcb] at hbc
        omega
      · have hbc2 : b.toNat = c.toNat := by omega
        have : a.toNat < c.toNat := by omega
        simp [charsLe, this]
    · by_cases hba : b.toNat < a.toNat
      · simp [charsLe, hab1, hba] at hab
      · have : a.toNat < c.toNat := by omega
        simp [charsLe, this]
    · by_cases hba : b.toNat < a.toNat
      · simp [charsLe, hab1, hba] at hab
      · by_cases hcb : c.toNat < b.toNat
        · simp [charsLe, hbc1, hcb] at hbc
        · have h1 : ¬ a.toNat < c.toNat := by omega
          have h2 : ¬ c.toNat < a.toNat := by omega
          simp only [charsLe, hab1, hba, if_false] at hab
          simp only [charsLe, hbc1, hcb, if_false] at hbc
          simp [charsLe, h1, h2, charsLe_trans hab hbc]

theorem strLe_total (a b : String) : strLe a b = true ∨ strLe b a = true :=
  charsLe_total a.toList b.toList

theorem strLe_trans {a b c : String} (h1 : strLe a b = true)
    (h2 : strLe b c = true) : strLe a c = true :=
  charsLe_trans h1 h2

theorem mem_orderedInsertStr (x a : String) :
    ∀ l : List String, x ∈ orderedInsertStr a l ↔ x = a ∨ x ∈ l
  | [] => by simp [orderedInsertStr]
  | b :: t => by
    by_cases h : strLe a b = true
    · simp [orderedInsertStr, h]
    · simp [orderedInsertStr, h, mem_orderedInsertStr x a t]
      tauto

theorem pairwise_orderedInsertStr (a : String) :
    ∀ l : List String, l.Pairwise (fun x y => strLe x y = true) →
    (orderedInsertStr a l).Pairwise (fun x y => strLe x y = true)
  | [], _ => by simp [orderedInsertStr]
  | b :: t, h => by
    have hbt := (List.pairwise_cons.mp h).1
    have ht := (List.pairwise_cons.mp h).2
    by_cases hab : strLe a b = true
    · simp only [orderedInsertStr, hab, if_true]
      refine List.pairwise_cons.mpr ⟨?_, h⟩
      intro y hy
      rcases List.mem_cons.mp hy with rfl | hy
      · exact hab
      · exact strLe_trans hab (hbt y hy)
    · simp only [orderedInsertStr, hab, if_false]
      refine List.pairwise_cons.mpr ⟨?_, pairwise_orderedInsertStr a t ht⟩
      intro y hy
      rcases (mem_orderedInsertStr y a t).mp hy with hy0 | hy
      · rw [hy0]
        rcases strLe_total a b with hh | hh
        · exact absurd hh hab
        · exact hh
      · exact hbt y hy

theorem pairwise_sortStrings :
    ∀ l : List String, (sortStrings l).Pairwise (fun x y => strLe x y = true)
  | [] => List.Pairwise.nil
  | a :: t => pairwise_orderedInsertStr a (sortStrings t) (pairwise_sortStrings t)

theorem mem_sortStrings (x : String) :
    ∀ l : List String, x ∈ sortStrings l ↔ x ∈ l
  | [] => Iff.rfl
  | a :: t => by
    simp [sortStrings, mem_orderedInsertStr, mem_sortStrings x t]

/-! ## C1: token validity window -/

/-- C1: a token issued at t0 validates exactly on the closed interval from
t0 to t0 plus the gap limit: once the clock is at or past the issuance
second, is_valid holds iff now is at most t0 + gap; in particular it holds
at t0 + gap and fails at t0 + gap + 1. -/
theorem C1_token_validity_window (gap t0 now : Int) (_hg : 0 ≤ gap)
    (hn : generate_token_time t0 ≤ now) :
    (is_valid gap (generate_token_time t0) now = true ↔
      (t0 ≤ now ∧ now ≤ t0 + gap)) ∧
    is_valid gap (generate_token_time t0) (t0 + gap) = true ∧
    is_valid gap (generate_token_time t0) (t0 + gap + 1) = false := by
  unfold is_valid generate_token_time at *
  refine ⟨?_, ?_, ?_⟩ <;> simp only [decide_eq_true_eq, decide_eq_false_iff_not] <;> omega

/-- Witness: the window theorem applied at gap 5, issuance 100, clock 105. -/
theorem C1_token_validity_window_witness :
    is_valid 5 (generate_token_time 100) (100 + 5) = true :=
  (C1_token_validity_window 5 100 105 (by decide) (by decide)).2.1

/-! ## C5: catalogue parse failure -/

/-- C5 counterexample: a malformed catalogue file does not make parse return
empty indexes; the decoding error propagates (parse has no handler). -/
theorem C5_counterexample :
    parse "free" CatalogueInput.malformed ≠ Except.ok emptyParserState ∧
    parse "free" CatalogueInput.malformed = Except.error () := by
  exact ⟨by simp [parse], rfl⟩

/-- C5 amended: an absent catalogue file leaves every index empty with
has_songlist false and parse completes; a file that exists but whose
top-level JSON is malformed makes parse propagate the decoding error. -/
theorem C5_parse_failure (freePack : String) :
    parse freePack CatalogueInput.absent = Except.ok emptyParserState ∧
    emptyParserState.has_songlist = false ∧
    emptyParserState.songs = [] ∧
    emptyParserState.pack_info = [] ∧
    emptyParserState.free_songs = ∅ ∧
    emptyParserState.world_songs = ∅ ∧
    parse freePack CatalogueInput.malformed = Except.error () :=
  ⟨rfl, rfl, rfl, rfl, rfl, rfl, rfl⟩

/-! ## C4: sync_all on an absent or empty root -/

/-- C4 counterexample: with the root directory absent, sync_all leaves both
tables untouched (the code returns before any delete), so a pre-existing
songs row survives, contrary to the claim that every row is deleted. -/
theorem C4_counterexample :
    sync_all [] false c4fsAbsent 0 c4db = c4db ∧ c4db.songs ≠ [] := by
  exact ⟨rfl, by decide⟩

/-- C4 amended: when the root is present but has no subdirectories, sync_all
deletes every songs and files row; when the root is absent, sync_all returns
with both tables unchanged. -/
theorem C4_sync_all_empty_root (catSongs : List (String × Nat)) (pre_calc : Bool)
    (fs : FS) (now : Int) (db : SongDB) :
    (fs.root_exists = false → sync_all catSongs pre_calc fs now db = db) ∧
    (fs.root_exists = true → songIds fs = [] →
      (sync_all catSongs pre_calc fs now db).songs = [] ∧
      (sync_all catSongs pre_calc fs now db).files = []) := by
  constructor
  · intro h
    simp [sync_all, h]
  · intro h hids
    simp [sync_all, syncPrune, h, hids]

/-- Witness: both branches of the amended statement at concrete inputs. -/
theorem C4_sync_all_empty_root_witness :
    sync_all [] false c4fsAbsent 0 c4db = c4db ∧
    (sync_all [] false c4fsEmptyRoot 0 c4db).songs = [] :=
  ⟨(C4_sync_all_empty_root [] false c4fsAbsent 0 c4db).1 rfl,
   ((C4_sync_all_empty_root [] false c4fsEmptyRoot 0 c4db).2 rfl rfl).1⟩

/-! ## C2: bitmap of a song without remote_dl -/

theorem testBit_c8 (k : Nat) : (8 : Nat).testBit k = decide (k = 3) := by
  have h : (8 : Nat) = 2 ^ 3 := by norm_num
  rw [h, Nat.testBit_two_pow]
  simp [eq_comm]

theorem testBit_c64 (k : Nat) : (64 : Nat).testBit k = decide (k = 6) := by
  have h : (64 : Nat) = 2 ^ 6 := by norm_num
  rw [h, Nat.testBit_two_pow]
  simp [eq_comm]

theorem testBit_c128 (k : Nat) : (128 : Nat).testBit k = decide (k = 7) := by
  have h : (128 : Nat) = 2 ^ 7 := by norm_num
  rw [h, Nat.testBit_two_pow]
  simp [eq_comm]

theorem testBit_c256 (k : Nat) : (256 : Nat).testBit k = decide (k = 8) := by
  have h : (256 : Nat) = 2 ^ 8 := by norm_num
  rw [h, Nat.testBit_two_pow]
  simp [eq_comm]

theorem testBit_c512 (k : Nat) : (512 : Nat).testBit k = decide (k = 9) := by
  have h : (512 : Nat) = 2 ^ 9 := by norm_num
  rw [h, Nat.testBit_two_pow]
  simp [eq_comm]

theorem testBit_c1024 (k : Nat) : (1024 : Nat).testBit k = decide (k = 10) := by
  have h : (1024 : Nat) = 2 ^ 10 := by norm_num
  rw [h, Nat.testBit_two_pow]
  simp [eq_comm]

theorem testBit_foldDiffNoDl (ds : List Difficulty) (r0 k : Nat) :
    ((ds.foldl parseDiffNoDl r0).testBit k = true) ↔
      (r0.testBit k = true ∨ (k = 3 ∧ ∃ d ∈ ds, d.ratingClass = 3)
        ∨ (k = 6 ∧ ∃ d ∈ ds, d.ratingClass = 3 ∧ d.audioOverride = true)) := by
  induction ds generalizing r0 with
  | nil => simp
  | cons d t ih =>
    rw [List.foldl_cons, ih]
    by_cases h3 : d.ratingClass = 3
    · by_cases hao : d.audioOverride = true
      · simp only [parseDiffNoDl, h3, hao, if_true, ite_true]
        simp [Nat.testBit_or, testBit_c8, testBit_c64, h3, hao]
        tauto
      · simp only [parseDiffNoDl, h3, if_true, ite_true, hao, if_false, ite_false]
        simp [Nat.testBit_or, testBit_c8, h3, hao]
        tauto
    · simp only [parseDiffNoDl, h3, if_false, ite_false]
      simp [h3]

theorem testBit_foldAF (l : List String) (r0 k : Nat) :
    ((l.foldl parseAF r0).testBit k = true) ↔
      (r0.testBit k = true ∨ (k = 7 ∧ "video.mp4" ∈ l)
        ∨ (k = 8 ∧ "video_audio.ogg" ∈ l)
        ∨ (k = 9 ∧ "video_720.mp4" ∈ l)
        ∨ (k = 10 ∧ "video_1080.mp4" ∈ l)) := by
  induction l generalizing r0 with
  | nil => simp
  | cons x t ih =>
    rw [List.foldl_cons, ih]
    by_cases h1 : x = "video.mp4"
    · subst h1
      simp [parseAF, Nat.testBit_or, testBit_c128]
      tauto
    · by_cases h2 : x = "video_audio.ogg"
      · subst h2
        simp [parseAF, Nat.testBit_or, testBit_c256]
        tauto
      · by_cases h3 : x = "video_720.mp4"
        · subst h3
          simp [parseAF, Nat.testBit_or, testBit_c512]
          tauto
        · by_cases h4 : x = "video_1080.mp4"
          · subst h4
            simp [parseAF, Nat.testBit_or, testBit_c1024]
            tauto
          · simp [parseAF, h1, h2, h3, h4]
            tauto

/-- The full bitmap characterization of parse_one without remote_dl, over
the two loops. -/
theorem testBit_parse_noDl (ds : List Difficulty) (l : List String) (k : Nat) :
    ((l.foldl parseAF (ds.foldl parseDiffNoDl 0)).testBit k = true) ↔
      ((k = 3 ∧ ∃ d ∈ ds, d.ratingClass = 3)
        ∨ (k = 6 ∧ ∃ d ∈ ds, d.ratingClass = 3 ∧ d.audioOverride = true)
        ∨ (k = 7 ∧ "video.mp4" ∈ l)
        ∨ (k = 8 ∧ "video_audio.ogg" ∈ l)
        ∨ (k = 9 ∧ "video_720.mp4" ∈ l)
        ∨ (k = 10 ∧ "video_1080.mp4" ∈ l)) := by
  rw [testBit_foldAF, testBit_foldDiffNoDl]
  simp only [Nat.zero_testBit, Bool.false_eq_true, false_or, or_assoc]

/-- C2 counterexample: a song with remote_dl absent, one Beyond difficulty
and video.mp4 among additional_files gets bitmap 136: bit 7 is set as well,
so the bitmap is not restricted to bit 3 (8) or bits 3 and 6 (72). -/
theorem C2_counterexample :
    parse_one c2song = some ("s", 136) ∧ (136 : Nat).testBit 7 = true ∧
    (136 : Nat) ≠ 8 ∧ (136 : Nat) ≠ 72 := by
  refine ⟨by decide, by decide, by decide, by decide⟩

/-- C2 amended: for a song whose remote_dl is false or absent, the chart and
base-audio bits 0, 1, 2, 4, 5 (and every bit other than 3, 6, 7, 8, 9, 10)
are never set; bit 3 is set exactly when some difficulty has ratingClass 3;
bit 6 exactly when such a difficulty has audioOverride; and bits 7 to 10 are
set exactly for the video names listed under additional_files. -/
theorem C2_bitmap_no_remote_dl (song : SongEntry) (sid : String) (r : Nat)
    (hid : song.id = some sid) (hdl : song.remote_dl.getD false = false)
    (hr : parse_one song = some (sid, r)) :
    (∀ k, k ≠ 3 → k ≠ 6 → k ≠ 7 → k ≠ 8 → k ≠ 9 → k ≠ 10 →
      r.testBit k = false) ∧
    (r.testBit 3 = true ↔ ∃ d ∈ song.difficulties, d.ratingClass = 3) ∧
    (r.testBit 6 = true ↔
      ∃ d ∈ song.difficulties, d.ratingClass = 3 ∧ d.audioOverride = true) ∧
    (r.testBit 7 = true ↔ "video.mp4" ∈ song.additional_files) ∧
    (r.testBit 8 = true ↔ "video_audio.ogg" ∈ song.additional_files) ∧
    (r.testBit 9 = true ↔ "video_720.mp4" ∈ song.additional_files) ∧
    (r.testBit 10 = true ↔ "video_1080.mp4" ∈ song.additional_files) := by
  have h2 : parse_one song =
      some (sid, song.additional_files.foldl parseAF
        (song.difficulties.foldl parseDiffNoDl 0)) := by
    simp [parse_one, hid, hdl]
  rw [hr] at h2
  have hF : r = song.additional_files.foldl parseAF
      (song.difficulties.foldl parseDiffNoDl 0) := by
    injection h2 with h3
    exact congrArg Prod.snd h3
  have key : ∀ k, (r.testBit k = true) ↔
      ((k = 3 ∧ ∃ d ∈ song.difficulties, d.ratingClass = 3)
        ∨ (k = 6 ∧ ∃ d ∈ song.difficulties, d.ratingClass = 3 ∧ d.audioOverride = true)
        ∨ (k = 7 ∧ "video.mp4" ∈ song.additional_files)
        ∨ (k = 8 ∧ "video_audio.ogg" ∈ song.additional_files)
        ∨ (k = 9 ∧ "video_720.mp4" ∈ song.additional_files)
        ∨ (k = 10 ∧ "video_1080.mp4" ∈ song.additional_files)) := by
    intro k
    rw [hF]
    exact testBit_parse_noDl song.difficulties song.additional_files k
  refine ⟨?_, ?_, ?_, ?_, ?_, ?_, ?_⟩
  · intro k k3 k6 k7 k8 k9 k10
    rw [← Bool.not_eq_true]
    rw [key k]
    tauto
  · rw [key 3]; simp
  · rw [key 6]; simp
  · rw [key 7]; simp
  · rw [key 8]; simp
  · rw [key 9]; simp
  · rw [key 10]; simp

/-- Witness: the amended bitmap characterization applied to a concrete song
with remote_dl false and an overriding Beyond difficulty (bitmap 72). -/
theorem C2_bitmap_no_remote_dl_witness :
    parse_one c2wsong = some ("s", 72) ∧ (72 : Nat).testBit 0 = false :=
  ⟨by decide,
   (C2_bitmap_no_remote_dl c2wsong "s" 72 (by decide) (by decide) (by decide)).1 0
     (by decide) (by decide) (by decide) (by decide) (by decide) (by decide)⟩

/-! ## C3: user unlocks -/

theorem mem_foldl_packs (pi : List (String × Finset String)) (l : List String)
    (init : Finset String) (s : String) :
    (s ∈ l.foldl (fun r i => match alookup pi i with
      | some ss => r ∪ ss
      | none => r) init) ↔
    (s ∈ init ∨ ∃ p ∈ l, ∃ ss, alookup pi p = some ss ∧ s ∈ ss) := by
  induction l generalizing init with
  | nil => simp
  | cons a t ih =>
    rw [List.foldl_cons]
    cases h : alookup pi a with
    | none =>
      rw [ih]
      simp [h]
    | some ss =>
      rw [ih]
      simp [h, Finset.mem_union]
      tauto

/-- C3 counterexample: with world index containing an id ending in two 3
digits, the code strips exactly one character while the claimed rstrip
removes both, so the two results differ. -/
theorem C3_counterexample :
    get_user_unlocks "single" c3state (some c3user) = {"a3"} ∧
    spec_get_user_unlocks "single" c3state (some c3user) = {"a"} ∧
    get_user_unlocks "single" c3state (some c3user) ≠
      spec_get_user_unlocks "single" c3state (some c3user) := by
  refine ⟨by decide, by decide, by decide⟩

/-- C3 amended: a nil user yields the empty set, and for a real user the
unlock set is exactly the union of the owned packs, the single pack
intersected with owned singles, the matched world songs with exactly one
trailing 3 digit stripped, and the free songs. -/
theorem C3_unlocks (sp : String) (x : ParserState) (u : UserInfo) (s : String) :
    get_user_unlocks sp x none = ∅ ∧
    ((s ∈ get_user_unlocks sp x (some u)) ↔
      ((∃ p ∈ u.packs, ∃ ss, alookup x.pack_info p = some ss ∧ s ∈ ss)
        ∨ (∃ ss, alookup x.pack_info sp = some ss ∧ s ∈ ss ∧ s ∈ u.singles)
        ∨ (∃ w, (w ∈ x.world_songs ∧ w ∈ u.world_songs) ∧ pyStrip3 w = s)
        ∨ s ∈ x.free_songs)) := by
  refine ⟨rfl, ?_⟩
  show (s ∈ (let r : Finset String := ∅
    let r := u.packs.foldl (fun r i =>
      match alookup x.pack_info i with
      | some ss => r ∪ ss
      | none => r) r
    let r := match alookup x.pack_info sp with
      | some ss => r ∪ (ss ∩ u.singles.toFinset)
      | none => r
    let r := r ∪ (x.world_songs ∩ u.world_songs.toFinset).image pyStrip3
    r ∪ x.free_songs)) ↔ _
  cases h : alookup x.pack_info sp with
  | none =>
    simp only [h, mem_foldl_packs, Finset.mem_union, Finset.mem_inter,
      Finset.mem_image, List.mem_toFinset, Finset.not_mem_empty, false_or]
    simp [h]
    aesop
  | some ss =>
    simp only [h, mem_foldl_packs, Finset.mem_union, Finset.mem_inter,
      Finset.mem_image, List.mem_toFinset, Finset.not_mem_empty, false_or]
    simp [h]
    aesop

/-- Witness: the characterization yields membership of the one-character
stripped world id at the concrete state. -/
theorem C3_unlocks_witness :
    "a3" ∈ get_user_unlocks "single" c3state (some c3user) :=
  (C3_unlocks "single" c3state c3user "a3").2.mpr
    (Or.inr (Or.inr (Or.inl ⟨"a33", ⟨by decide, by decide⟩, by decide⟩)))

/-! ## C6: idempotence of sync_all on an unchanged tree -/

theorem sync_song_fast (cs : List (String × Nat)) (pc : Bool) (fs : FS)
    (now : Int) (sid : String) (m : Int) (db : SongDB) (dir : SongDirectory)
    (row : SongRow) (hdir : statDir fs sid = some dir)
    (hrow : alookup db.songs sid = some row) (hm : row.dir_mtime_ns = m) :
    sync_song cs pc fs now sid (some m) db = db := by
  unfold sync_song
  rw [hdir]
  simp [syncFast, hrow, hm]

theorem sync_song_songs_after (cs : List (String × Nat)) (pc : Bool) (fs : FS)
    (now : Int) (sid : String) (m : Int) (db : SongDB) (dir : SongDirectory)
    (hdir : statDir fs sid = some dir) :
    ∃ ls, alookup (sync_song cs pc fs now sid (some m) db).songs sid
      = some { dir_mtime_ns := m, last_scan := ls } := by
  unfold sync_song
  rw [hdir]
  dsimp only
  by_cases hfast : syncFast db sid ((some m).getD dir.mtime_ns) = true
  · rw [if_pos hfast]
    unfold syncFast at hfast
    cases hrow : alookup db.songs sid with
    | none => rw [hrow] at hfast; simp at hfast
    | some row =>
      rw [hrow] at hfast
      simp at hfast
      refine ⟨row.last_scan, ?_⟩
      cases row
      simp_all
  · rw [if_neg hfast]
    exact ⟨now, alookup_dictSet_self db.songs sid _⟩

theorem sync_song_songs_other (cs : List (String × Nat)) (pc : Bool) (fs : FS)
    (now : Int) (sid : String) (m0 : Option Int) (db : SongDB) (sid2 : String)
    (h : sid2 ≠ sid) :
    alookup (sync_song cs pc fs now sid m0 db).songs sid2
      = alookup db.songs sid2 := by
  unfold sync_song
  cases hdir : statDir fs sid with
  | none =>
    unfold deleteSong
    rw [alookup_filter (fun k => decide (k ≠ sid)) db.songs sid2]
    simp [h]
  | some dir =>
    dsimp only
    by_cases hfast : syncFast db sid (m0.getD dir.mtime_ns) = true
    · rw [if_pos hfast]
    · rw [if_neg hfast]
      exact alookup_dictSet_ne db.songs sid sid2 _ h

theorem alookup_isSome_of_mem_keys {α β : Type} [DecidableEq α]
    (l : List (α × β)) (k : α) (h : k ∈ l.map Prod.fst) :
    ∃ v, alookup l k = some v := by
  induction l with
  | nil => simp at h
  | cons p t ih =>
    obtain ⟨a, b⟩ := p
    by_cases hak : a = k
    · exact ⟨b, by simp [alookup, hak]⟩
    · simp only [List.map_cons, List.mem_cons] at h
      rcases h with h | h
      · exact absurd h.symm hak
      · obtain ⟨v, hv⟩ := ih h
        exact ⟨v, by simp [alookup, hak, hv]⟩

theorem foldSync_preserves (cs : List (String × Nat)) (pc : Bool) (fs : FS)
    (now : Int) (ids : List String) (db : SongDB) (sid : String)
    (d : SongDirectory) (row : SongRow) (hdir : statDir fs sid = some d)
    (hrow : alookup db.songs sid = some row)
    (hm : row.dir_mtime_ns = d.mtime_ns) :
    alookup ((ids.foldl (syncStep cs pc fs now) db)).songs sid = some row := by
  induction ids generalizing db with
  | nil => simpa using hrow
  | cons a t ih =>
    rw [List.foldl_cons]
    by_cases has : a = sid
    · subst has
      have hstep : syncStep cs pc fs now db a = db := by
        unfold syncStep
        rw [hdir]
        exact sync_song_fast cs pc fs now a d.mtime_ns db d row hdir
          hrow (by rw [hm])
      rw [hstep]
      exact ih db hrow
    · have hstep : alookup (syncStep cs pc fs now db a).songs sid = some row := by
        unfold syncStep
        cases hda : statDir fs a with
        | none => exact hrow
        | some d2 =>
          rw [sync_song_songs_other cs pc fs now a (some d2.mtime_ns) db sid
            (fun hh => has hh.symm)]
          exact hrow
      exact ih _ hstep

theorem foldSync_establishes (cs : List (String × Nat)) (pc : Bool) (fs : FS)
    (now : Int) (ids : List String) (db : SongDB) (sid : String)
    (d : SongDirectory) :
    sid ∈ ids → statDir fs sid = some d →
    ∃ ls, alookup ((ids.foldl (syncStep cs pc fs now) db)).songs sid
      = some { dir_mtime_ns := d.mtime_ns, last_scan := ls } := by
  induction ids generalizing db with
  | nil => intro h _; cases h
  | cons a t ih =>
    intro hmem hdir
    rw [List.foldl_cons]
    by_cases has : a = sid
    · subst has
      have hstep : ∃ ls, alookup (syncStep cs pc fs now db a).songs a
          = some { dir_mtime_ns := d.mtime_ns, last_scan := ls } := by
        unfold syncStep
        rw [hdir]
        exact sync_song_songs_after cs pc fs now a d.mtime_ns db d hdir
      obtain ⟨ls, hls⟩ := hstep
      exact ⟨ls, foldSync_preserves cs pc fs now t _ a d
        { dir_mtime_ns := d.mtime_ns, last_scan := ls } hdir hls rfl⟩
    · rcases List.mem_cons.mp hmem with h1 | h1
      · exact absurd h1.symm has
      · exact ih _ h1 hdir

theorem foldSync_identity (cs : List (String × Nat)) (pc : Bool) (fs : FS)
    (now : Int) (ids : List String) (db : SongDB) :
    (∀ sid ∈ ids, ∀ d, statDir fs sid = some d →
      ∃ row, alookup db.songs sid = some row ∧ row.dir_mtime_ns = d.mtime_ns) →
    ids.foldl (syncStep cs pc fs now) db = db := by
  induction ids generalizing db with
  | nil => intro _; rfl
  | cons a t ih =>
    intro h
    rw [List.foldl_cons]
    have hstep : syncStep cs pc fs now db a = db := by
      unfold syncStep
      cases hda : statDir fs a with
      | none => rfl
      | some d =>
        obtain ⟨row, hrow, hm⟩ := h a (List.mem_cons_self a t) d hda
        exact sync_song_fast cs pc fs now a d.mtime_ns db d row hda hrow hm
    rw [hstep]
    exact ih db (fun sid hs d hd => h sid (List.mem_cons_of_mem a hs) d hd)

theorem syncPrune_songs_lookup (fs : FS) (db : SongDB) (sid : String)
    (hids : ¬ songIds fs = []) (hmem : sid ∈ songIds fs) :
    alookup (syncPrune fs db).songs sid = alookup db.songs sid := by
  unfold syncPrune
  rw [if_neg hids]
  rw [alookup_filter (fun k => decide (k ∈ songIds fs)) db.songs sid]
  simp [hmem]

theorem syncPrune_keys_songs (fs : FS) (db : SongDB)
    (hids : ¬ songIds fs = []) :
    ∀ p ∈ (syncPrune fs db).songs, p.1 ∈ songIds fs := by
  intro p hp
  unfold syncPrune at hp
  rw [if_neg hids] at hp
  have := (List.mem_filter.mp hp).2
  simpa using this

theorem syncPrune_keys_files (fs : FS) (db : SongDB)
    (hids : ¬ songIds fs = []) :
    ∀ p ∈ (syncPrune fs db).files, p.1.1 ∈ songIds fs := by
  intro p hp
  unfold syncPrune at hp
  rw [if_neg hids] at hp
  have := (List.mem_filter.mp hp).2
  simpa using this

theorem syncPrune_noop (fs : FS) (db : SongDB) (hids : ¬ songIds fs = [])
    (hs : ∀ p ∈ db.songs, p.1 ∈ songIds fs)
    (hf : ∀ p ∈ db.files, p.1.1 ∈ songIds fs) :
    syncPrune fs db = db := by
  unfold syncPrune
  rw [if_neg hids]
  have h1 : db.songs.filter (fun p => decide (p.1 ∈ songIds fs)) = db.songs :=
    List.filter_eq_self.mpr (fun a ha => by simpa using hs a ha)
  have h2 : db.files.filter (fun p => decide (p.1.1 ∈ songIds fs)) = db.files :=
    List.filter_eq_self.mpr (fun a ha => by simpa using hf a ha)
  rw [h1, h2]

/-- C6: sync_all is idempotent on an unchanged tree: running it a second
time (at any later clock value) returns the state of the first run exactly,
so in particular the songs and files rows are identical, last_scan and
last_seen included. -/
theorem C6_sync_all_idempotent (cs : List (String × Nat)) (pc : Bool) (fs : FS)
    (now1 now2 : Int) (db : SongDB) :
    sync_all cs pc fs now2 (sync_all cs pc fs now1 db) =
      sync_all cs pc fs now1 db := by
  by_cases hroot : fs.root_exists
  case neg => simp [sync_all, hroot]
  case pos =>
    by_cases hids : songIds fs = []
    · simp [sync_all, syncPrune, hroot, hids]
    · set D1 := sync_all cs pc fs now1 db with hD1def
      have hD1 : D1 = syncPrune fs ((songIds fs).foldl (syncStep cs pc fs now1) db) := by
        rw [hD1def]
        unfold sync_all
        rw [if_pos hroot]
      have hinv : ∀ sid ∈ songIds fs, ∀ d, statDir fs sid = some d →
          ∃ row, alookup D1.songs sid = some row ∧ row.dir_mtime_ns = d.mtime_ns := by
        intro sid hs d hd
        obtain ⟨ls, hls⟩ := foldSync_establishes cs pc fs now1 (songIds fs) db sid d hs hd
        refine ⟨{ dir_mtime_ns := d.mtime_ns, last_scan := ls }, ?_, rfl⟩
        rw [hD1, syncPrune_songs_lookup fs _ sid hids hs]
        exact hls
      have hfold2 : (songIds fs).foldl (syncStep cs pc fs now2) D1 = D1 :=
        foldSync_identity cs pc fs now2 (songIds fs) D1 hinv
      have hkeys_s : ∀ p ∈ D1.songs, p.1 ∈ songIds fs := by
        rw [hD1]
        exact syncPrune_keys_songs fs _ hids
      have hkeys_f : ∀ p ∈ D1.files, p.1.1 ∈ songIds fs := by
        rw [hD1]
        exact syncPrune_keys_files fs _ hids
      calc sync_all cs pc fs now2 D1
          = syncPrune fs ((songIds fs).foldl (syncStep cs pc fs now2) D1) := by
            unfold sync_all
            rw [if_pos hroot]
        _ = syncPrune fs D1 := by rw [hfold2]
        _ = D1 := syncPrune_noop fs D1 hids hkeys_s hkeys_f

/-! ## C7: bitmap legality of get_song_file_names -/

theorem keys_syncFileRows (pc : Bool) (now : Int) (sid : String)
    (dir : SongDirectory) (rows : List ((String × String) × FileRow))
    (fn : String) (k : String × String)
    (hk : k ∈ (syncFileRows pc now sid dir rows fn).map Prod.fst) :
    k ∈ rows.map Prod.fst ∨ k = (sid, fn) := by
  unfold syncFileRows at hk
  cases h1 : alookup dir.files fn with
  | none =>
    rw [h1] at hk
    left
    rcases List.mem_map.mp hk with ⟨p, hp, rfl⟩
    exact List.mem_map.mpr ⟨p, (List.mem_filter.mp hp).1, rfl⟩
  | some st =>
    rw [h1] at hk
    dsimp only at hk
    cases h2 : alookup rows (sid, fn) with
    | none =>
      rw [h2] at hk
      exact mem_keys_dictSet rows (sid, fn) k _ hk
    | some existing =>
      rw [h2] at hk
      dsimp only at hk
      split_ifs at hk
      all_goals exact mem_keys_dictSet rows (sid, fn) k _ hk

theorem keys_foldFileRows (pc : Bool) (now : Int) (sid : String)
    (dir : SongDirectory) (cs : List (String × Nat)) (fns : List String)
    (rows : List ((String × String) × FileRow)) (k : String × String) :
    (∀ fn ∈ fns, is_available_file cs sid fn = true) →
    k ∈ ((fns.foldl (syncFileRows pc now sid dir) rows)).map Prod.fst →
    (k ∈ rows.map Prod.fst ∨ (k.1 = sid ∧ is_available_file cs sid k.2 = true)) := by
  induction fns generalizing rows with
  | nil =>
    intro _ hk
    exact Or.inl hk
  | cons a t ih =>
    intro hall hk
    rw [List.foldl_cons] at hk
    rcases ih _ (fun fn hf => hall fn (List.mem_cons_of_mem a hf)) hk with h | h
    · rcases keys_syncFileRows pc now sid dir rows a k h with h2 | h2
      · exact Or.inl h2
      · subst h2
        exact Or.inr ⟨rfl, hall a (List.mem_cons_self a t)⟩
    · exact Or.inr h

theorem keys_syncFiles (cs : List (String × Nat)) (pc : Bool) (now : Int)
    (sid : String) (dir : SongDirectory)
    (rows : List ((String × String) × FileRow)) (k : String × String)
    (hk : k ∈ (syncFiles cs pc now sid dir rows).map Prod.fst) :
    k ∈ rows.map Prod.fst ∨ (k.1 = sid ∧ is_available_file cs sid k.2 = true) := by
  unfold syncFiles at hk
  dsimp only at hk
  split_ifs at hk
  · left
    rcases List.mem_map.mp hk with ⟨p, hp, rfl⟩
    exact List.mem_map.mpr ⟨p, (List.mem_filter.mp hp).1, rfl⟩
  · have hall : ∀ fn ∈ (dir.files.filter
        (fun f => is_available_file cs sid f.1)).map Prod.fst,
        is_available_file cs sid fn = true := by
      intro fn hf
      rcases List.mem_map.mp hf with ⟨f, hf2, rfl⟩
      exact (List.mem_filter.mp hf2).2
    rcases keys_foldFileRows pc now sid dir cs _ _ k hall hk with h | h
    · left
      rcases List.mem_map.mp h with ⟨p, hp, rfl⟩
      exact List.mem_map.mpr ⟨p, (List.mem_filter.mp hp).1, rfl⟩
    · exact Or.inr h

theorem keys_sync_song_files (cs : List (String × Nat)) (pc : Bool) (fs : FS)
    (now : Int) (sid : String) (m0 : Option Int) (db : SongDB)
    (k : String × String)
    (hk : k ∈ (sync_song cs pc fs now sid m0 db).files.map Prod.fst) :
    k ∈ db.files.map Prod.fst ∨ (k.1 = sid ∧ is_available_file cs sid k.2 = true) := by
  unfold sync_song at hk
  cases hdir : statDir fs sid with
  | none =>
    rw [hdir] at hk
    unfold deleteSong at hk
    left
    rcases List.mem_map.mp hk with ⟨p, hp, rfl⟩
    exact List.mem_map.mpr ⟨p, (List.mem_filter.mp hp).1, rfl⟩
  | some dir =>
    rw [hdir] at hk
    dsimp only at hk
    split_ifs at hk
    · exact Or.inl hk
    · exact keys_syncFiles cs pc now sid dir db.files k hk

theorem avail_of_keys_mem (cs : List (String × Nat)) (db : SongDB)
    (k : String × String) (hleg : filesLegal cs db = true)
    (hk : k ∈ db.files.map Prod.fst) :
    is_available_file cs k.1 k.2 = true := by
  rcases List.mem_map.mp hk with ⟨p, hp, rfl⟩
  exact List.all_eq_true.mp hleg p hp

/-- C7: every file name returned by get_song_file_names is legal for the
catalogue, whenever every stored files row is legal (the invariant the sync
paths establish and the hashing path preserves for names drawn from this
query). -/
theorem C7_bitmap_legality (cs : List (String × Nat)) (pc : Bool) (fs : FS)
    (now : Int) (sid : String) (m : Int) (db : SongDB)
    (hleg : filesLegal cs db = true) :
    ∀ name ∈ (get_song_file_names cs pc fs now sid m db).1,
      is_available_file cs sid name = true := by
  intro name hname
  unfold get_song_file_names at hname
  dsimp only at hname
  rw [mem_sortStrings] at hname
  rcases List.mem_map.mp hname with ⟨p, hp, rfl⟩
  have hpin := (List.mem_filter.mp hp).1
  have hpid : p.1.1 = sid := by
    have := (List.mem_filter.mp hp).2
    simpa using this
  have hkey : p.1 ∈ (if (match alookup db.songs sid with
      | some row => decide (row.dir_mtime_ns ≠ m)
      | none => true) = true
      then sync_song cs pc fs now sid (some m) db else db).files.map Prod.fst :=
    List.mem_map.mpr ⟨p, hpin, rfl⟩
  rw [← hpid]
  split_ifs at hkey with hst
  · rcases keys_sync_song_files cs pc fs now sid (some m) db p.1 hkey with h | h
    · exact avail_of_keys_mem cs db p.1 hleg h
    · rw [hpid]
      rw [hpid] at h
      exact h.2
  · exact avail_of_keys_mem cs db p.1 hleg hkey

/-- Witness: the legality theorem applied to an empty catalogue, the one-song
tree and an empty cache, where the query returns the chart file. -/
theorem C7_bitmap_legality_witness :
    is_available_file [] "s" "0.aff" = true :=
  C7_bitmap_legality [] false c7fs 0 "s" 5 ⟨[], []⟩ (by decide) "0.aff" (by decide)

/-! ## C8: ordering of the emitted manifest keys -/

theorem keys_add_one_song (env : Env) (uf : Bool) (a : String) (st : DLState) :
    ((add_one_song env uf a st).urls.map Prod.fst = st.urls.map Prod.fst) ∨
    ((add_one_song env uf a st).urls.map Prod.fst = st.urls.map Prod.fst ++ [a]) := by
  unfold add_one_song
  dsimp only
  exact keys_dictSet st.urls a _

theorem urls_keys_fold (env : Env) (uf : Bool) (ids : List String) (st : DLState) :
    ((ids.foldl (fun st i => add_one_song env uf i st) st).urls.map Prod.fst).Sublist
      (st.urls.map Prod.fst ++ ids) := by
  induction ids generalizing st with
  | nil => simp
  | cons a t ih =>
    rw [List.foldl_cons]
    have h1 := ih (add_one_song env uf a st)
    rcases keys_add_one_song env uf a st with hk | hk
    · rw [hk] at h1
      refine h1.trans ?_
      exact List.Sublist.append_left (List.sublist_cons_self a t) _
    · rw [hk] at h1
      refine h1.trans ?_
      rw [List.append_assoc]
      simp

theorem dl_gasi_urls (env : Env) (st : DLState) :
    (dl_get_all_song_ids env st).2.urls = st.urls := by
  unfold dl_get_all_song_ids
  split_ifs <;> rfl

theorem dl_gasi_sorted (env : Env) (st : DLState) :
    ((dl_get_all_song_ids env st).1).Pairwise (fun a b => strLe a b = true) := by
  unfold dl_get_all_song_ids
  split_ifs
  · unfold cache_get_all_song_ids
    dsimp only
    split_ifs <;> exact pairwise_sortStrings _
  · exact List.Pairwise.nil

/-- C8 counterexample: an explicit unsorted song_ids list with no
entitlement filtering is processed, and its manifest keys emitted, in the
caller-given order, which is not ascending. -/
theorem C8_counterexample :
    ((add_songs env8 false u8 (some ["b", "a"]) st0).urls.map Prod.fst
      = ["b", "a"]) ∧
    ¬ List.Pairwise (fun a b => strLe a b = true)
        ((add_songs env8 false u8 (some ["b", "a"]) st0).urls.map Prod.fst) := by
  have h : (add_songs env8 false u8 (some ["b", "a"]) st0).urls.map Prod.fst
      = ["b", "a"] := by decide
  refine ⟨h, ?_⟩
  rw [h]
  intro hp
  have h2 := (List.pairwise_cons.mp hp).1 "a" (by simp)
  exact absurd h2 (by decide)

/-- C8 amended: only the empty-song_ids path without entitlement filtering
is guaranteed to emit the manifest keys ascending by song_id (they come from
the ORDER BY of the cache query); the explicit path follows the caller order
and the set-intersection filter follows the unspecified Python set order. -/
theorem C8_sorted_empty_path (env : Env) (url_flag : Bool) (user : UserInfo)
    (st : DLState) (hfilter : (env.forbid && env.ps.has_songlist) = false)
    (hurls : st.urls = []) :
    List.Pairwise (fun a b => strLe a b = true)
      ((add_songs env url_flag user none st).urls.map Prod.fst) := by
  have hmain : (add_songs env url_flag user none st).urls
      = ((dl_get_all_song_ids env st).1.foldl
          (fun st i => add_one_song env url_flag i st)
          (dl_get_all_song_ids env st).2).urls := by
    unfold add_songs
    simp only [Option.getD_none, eq_self_iff_true, if_true, hfilter,
      Bool.false_eq_true, if_false]
    split_ifs <;> rfl
  rw [hmain]
  have hsub := urls_keys_fold env url_flag (dl_get_all_song_ids env st).1
    (dl_get_all_song_ids env st).2
  rw [dl_gasi_urls, hurls] at hsub
  simp only [List.map_nil, List.nil_append] at hsub
  exact (dl_gasi_sorted env st).sublist hsub

/-- Witness: the amended ordering at the two-directory tree with no
filtering. -/
theorem C8_sorted_empty_path_witness :
    List.Pairwise (fun a b => strLe a b = true)
      ((add_songs env8 false u8 none st0).urls.map Prod.fst) :=
  C8_sorted_empty_path env8 false u8 st0 rfl rfl

/-! ## C9: no token activity without url_flag -/

theorem add_one_song_tokens (env : Env) (uf : Bool) (i : String) (st : DLState) :
    (add_one_song env uf i st).tokens = st.tokens := rfl

theorem fold_add_tokens (env : Env) (uf : Bool) (ids : List String)
    (st : DLState) :
    ((ids.foldl (fun st i => add_one_song env uf i st) st)).tokens = st.tokens := by
  induction ids generalizing st with
  | nil => rfl
  | cons a t ih =>
    rw [List.foldl_cons, ih, add_one_song_tokens]

theorem fold_add_tokens_cond (env : Env) (uf : Bool) (ids : List String)
    (st : DLState) :
    ((ids.foldl (fun st i =>
      if (statDir env.fs i).isSome then add_one_song env uf i st else st) st)).tokens
      = st.tokens := by
  induction ids generalizing st with
  | nil => rfl
  | cons a t ih =>
    rw [List.foldl_cons, ih]
    split_ifs
    · rw [add_one_song_tokens]
    · rfl

theorem dl_gasi_tokens (env : Env) (st : DLState) :
    (dl_get_all_song_ids env st).2.tokens = st.tokens := by
  unfold dl_get_all_song_ids
  split_ifs <;> rfl

theorem dl_gasi_downloads (env : Env) (st : DLState) :
    (dl_get_all_song_ids env st).2.downloads = st.downloads := by
  unfold dl_get_all_song_ids
  split_ifs <;> rfl

theorem add_one_song_downloads_none (env : Env) (i : String) (st : DLState)
    (x : Download) (hx : x ∈ (add_one_song env false i st).downloads) :
    x ∈ st.downloads ∨ (x.token = none ∧ x.token_time = none) := by
  unfold add_one_song at hx
  dsimp only at hx
  rcases List.mem_append.mp hx with h | h
  · exact Or.inl h
  · right
    unfold downloads_of at h
    rcases List.mem_map.mp h with ⟨n, hn, rfl⟩
    simp

theorem fold_add_downloads_none (env : Env) (ids : List String) (st : DLState)
    (x : Download)
    (hx : x ∈ ((ids.foldl (fun st i => add_one_song env false i st) st)).downloads) :
    x ∈ st.downloads ∨ (x.token = none ∧ x.token_time = none) := by
  induction ids generalizing st with
  | nil => exact Or.inl hx
  | cons a t ih =>
    rw [List.foldl_cons] at hx
    rcases ih _ hx with h | h
    · exact add_one_song_downloads_none env a st x h
    · exact Or.inr h

theorem fold_add_downloads_none_cond (env : Env) (ids : List String)
    (st : DLState) (x : Download)
    (hx : x ∈ ((ids.foldl (fun st i =>
      if (statDir env.fs i).isSome then add_one_song env false i st else st)
        st)).downloads) :
    x ∈ st.downloads ∨ (x.token = none ∧ x.token_time = none) := by
  induction ids generalizing st with
  | nil => exact Or.inl hx
  | cons a t ih =>
    rw [List.foldl_cons] at hx
    rcases ih _ hx with h | h
    · by_cases hs : (statDir env.fs a).isSome = true
      · rw [if_pos hs] at h
        exact add_one_song_downloads_none env a st x h
      · rw [if_neg hs] at h
        exact Or.inl h
    · exact Or.inr h

/-- C9: a request with url_flag falsy leaves the download_token table
exactly as it was (no pruning of expired rows, no insert), and none of the
UserDownloads it issues carries a token or a token_time. -/
theorem C9_no_token_activity (env : Env) (user : UserInfo)
    (ids_arg : Option (List String)) (st : DLState)
    (hd : st.downloads = []) :
    (add_songs env false user ids_arg st).tokens = st.tokens ∧
    ∀ x ∈ (add_songs env false user ids_arg st).downloads,
      x.token = none ∧ x.token_time = none := by
  have hred : add_songs env false user ids_arg st =
      (if ids_arg.getD [] = [] then
        ((if env.forbid && env.ps.has_songlist
          then env.setEnum (get_user_unlocks env.singlePack env.ps (some user)
            ∩ (dl_get_all_song_ids env st).1.toFinset)
          else (dl_get_all_song_ids env st).1).foldl
            (fun st i => add_one_song env false i st) (dl_get_all_song_ids env st).2)
      else
        ((if env.forbid && env.ps.has_songlist
          then env.setEnum (get_user_unlocks env.singlePack env.ps (some user)
            ∩ (ids_arg.getD []).toFinset)
          else ids_arg.getD []).foldl
            (fun st i =>
              if (statDir env.fs i).isSome then add_one_song env false i st else st)
            st)) := by
    unfold add_songs
    simp only [Bool.false_eq_true, if_false]
  rw [hred]
  by_cases hempty : ids_arg.getD [] = []
  · rw [if_pos hempty]
    constructor
    · rw [fold_add_tokens, dl_gasi_tokens]
    · intro x hx
      rcases fold_add_downloads_none env _ _ x hx with h | h
      · rw [dl_gasi_downloads, hd] at h
        cases h
      · exact h
  · rw [if_neg hempty]
    constructor
    · rw [fold_add_tokens_cond]
    · intro x hx
      rcases fold_add_downloads_none_cond env _ _ x hx with h | h
      · rw [hd] at h
        cases h
      · exact h

/-- Witness: the frame property at the two-directory tree with one
pre-existing token row and an explicit song list. -/
theorem C9_no_token_activity_witness :
    (add_songs env8 false u8 (some ["a"]) st9).tokens = st9.tokens :=
  (C9_no_token_activity env8 u8 (some ["a"]) st9 rfl).1

/-! ## C10: audio entry with key 3 but no checksum key -/

theorem routeFile_p_preserve (env : Env) (uf : Bool) (sid : String)
    (re : Manifest) (i : String) (hne : i ≠ "base.ogg")
    (hp : re.audio = none ∨ ∃ a, re.audio = some a ∧ a.checksum = none) :
    (routeFile env uf sid re i).audio = none ∨
    ∃ a, (routeFile env uf sid re i).audio = some a ∧ a.checksum = none := by
  unfold routeFile
  rw [if_neg hne]
  by_cases h3 : i = "3.ogg"
  · rw [if_pos h3]
    right
    refine ⟨_, rfl, ?_⟩
    rcases hp with hp | ⟨a, ha, hc⟩
    · simp [hp, emptyAudio]
    · simp [ha, hc]
  · rw [if_neg h3]
    by_cases hv : i = "video.mp4" ∨ i = "video_audio.ogg" ∨ i = "video_720.mp4"
        ∨ i = "video_1080.mp4"
    · rw [if_pos hv]
      exact hp
    · rw [if_neg hv]
      exact hp

theorem routeFile_q_preserve (env : Env) (uf : Bool) (sid : String)
    (re : Manifest) (i : String) (hne : i ≠ "base.ogg")
    (hq : ∃ a, re.audio = some a ∧ a.checksum = none ∧ a.three.isSome = true) :
    ∃ a, (routeFile env uf sid re i).audio = some a ∧ a.checksum = none ∧
      a.three.isSome = true := by
  obtain ⟨a, ha, hc, ht⟩ := hq
  unfold routeFile
  rw [if_neg hne]
  by_cases h3 : i = "3.ogg"
  · rw [if_pos h3]
    refine ⟨_, rfl, ?_, ?_⟩
    · simp [ha, hc]
    · rfl
  · rw [if_neg h3]
    by_cases hv : i = "video.mp4" ∨ i = "video_audio.ogg" ∨ i = "video_720.mp4"
        ∨ i = "video_1080.mp4"
    · rw [if_pos hv]
      exact ⟨a, ha, hc, ht⟩
    · rw [if_neg hv]
      exact ⟨a, ha, hc, ht⟩

theorem routeFile_q_establish (env : Env) (uf : Bool) (sid : String)
    (re : Manifest)
    (hp : re.audio = none ∨ ∃ a, re.audio = some a ∧ a.checksum = none) :
    ∃ a, (routeFile env uf sid re "3.ogg").audio = some a ∧ a.checksum = none ∧
      a.three.isSome = true := by
  unfold routeFile
  rw [if_neg (by decide), if_pos rfl]
  refine ⟨_, rfl, ?_, rfl⟩
  rcases hp with hp | ⟨a, ha, hc⟩
  · simp [hp, emptyAudio]
  · simp [ha, hc]

theorem fold_q_preserve (env : Env) (uf : Bool) (sid : String)
    (names : List String) (re : Manifest) :
    "base.ogg" ∉ names →
    (∃ a, re.audio = some a ∧ a.checksum = none ∧ a.three.isSome = true) →
    ∃ a, (names.foldl (routeFile env uf sid) re).audio = some a ∧
      a.checksum = none ∧ a.three.isSome = true := by
  induction names generalizing re with
  | nil => intro _ hq; exact hq
  | cons x t ih =>
    intro hb hq
    rw [List.foldl_cons]
    exact ih _ (fun h => hb (List.mem_cons_of_mem x h))
      (routeFile_q_preserve env uf sid re x
        (fun h => hb (h ▸ List.mem_cons_self x t)) hq)

theorem fold_q_establish (env : Env) (uf : Bool) (sid : String)
    (names : List String) (re : Manifest) :
    (re.audio = none ∨ ∃ a, re.audio = some a ∧ a.checksum = none) →
    "3.ogg" ∈ names → "base.ogg" ∉ names →
    ∃ a, (names.foldl (routeFile env uf sid) re).audio = some a ∧
      a.checksum = none ∧ a.three.isSome = true := by
  induction names generalizing re with
  | nil => intro _ h3 _; cases h3
  | cons x t ih =>
    intro hp h3 hb
    rw [List.foldl_cons]
    by_cases hx3 : x = "3.ogg"
    · subst hx3
      exact fold_q_preserve env uf sid t _
        (fun h => hb (List.mem_cons_of_mem _ h))
        (routeFile_q_establish env uf sid re hp)
    · have h3t : "3.ogg" ∈ t := by
        rcases List.mem_cons.mp h3 with h | h
        · exact absurd h.symm hx3
        · exact h
      exact ih _ (routeFile_p_preserve env uf sid re x
          (fun h => hb (h ▸ List.mem_cons_self x t)) hp)
        h3t (fun h => hb (List.mem_cons_of_mem x h))

/-- C10: when the legal file list of a song contains 3.ogg but not base.ogg,
the manifest audio object built by add_one_song exists, holds the key named
3, and has no top-level checksum key; moreover add_one_song stores exactly
this manifest under the song id. -/
theorem C10_audio_three_without_checksum (env : Env) (url_flag : Bool)
    (song_id : String) (names : List String) (h3 : "3.ogg" ∈ names)
    (hb : "base.ogg" ∉ names) :
    (manifest_of env url_flag song_id names).audio.isSome = true ∧
    ((manifest_of env url_flag song_id names).audio.getD emptyAudio).checksum
      = none ∧
    ((manifest_of env url_flag song_id names).audio.getD emptyAudio).three.isSome
      = true ∧
    ∀ st : DLState, alookup (add_one_song env url_flag song_id st).urls song_id
      = some (manifest_of env url_flag song_id
          (get_one_song_file_names env song_id st.db).1) := by
  obtain ⟨a, ha, hc, ht⟩ := fold_q_establish env url_flag song_id names
    emptyManifest (Or.inl rfl) h3 hb
  have hman : (manifest_of env url_flag song_id names).audio = some a := ha
  refine ⟨?_, ?_, ?_, ?_⟩
  · rw [hman]; rfl
  · rw [hman]
    exact hc
  · rw [hman]
    exact ht
  · intro st
    unfold add_one_song
    dsimp only
    exact alookup_dictSet_self st.urls song_id _

/-- Witness: the audio shape at a one-file legal list holding only 3.ogg. -/
theorem C10_audio_three_without_checksum_witness :
    ((manifest_of baseEnv false "s" ["3.ogg"]).audio.getD emptyAudio).checksum
      = none :=
  (C10_audio_three_without_checksum baseEnv false "s" ["3.ogg"]
    (by decide) (by decide)).2.1

end ArcaeaDL
